import Mathlib

/-!
Shallow embedding of the transaction engine (src/src/transaction_engine.rs).

The engine replays a log of transactions (deposit, withdrawal, dispute,
resolve, chargeback) into per-client account balances.  The two Rust
`HashMap`s (`ClientList.clients` and `TransactionEngine.transactions`) are
modelled as association lists with an insert-or-update operation; `f64`
amounts are modelled as exact rationals, following the spec's numeric
semantics (exact decimal arithmetic, no rounding inside handlers).
Client and transaction identifiers (`u16`, `u32`) are modelled as `Nat`:
no handler performs arithmetic on them, so overflow is irrelevant.
-/

namespace TransactionEngineModel

/-- Mirror of the Rust `Client` struct. -/
structure Client where
  client : Nat
  available : ℚ
  held : ℚ
  total : ℚ
  locked : Bool
deriving DecidableEq, Repr

/-- Mirror of the Rust `TransactionState` enum. -/
inductive TransactionState where
  | disputed : TransactionState
  | none : TransactionState
deriving DecidableEq, Repr

/-- Mirror of the Rust `PersistedTransaction` enum (deposits only). -/
inductive PersistedTransaction where
  | deposit (client_id : Nat) (tx_id : Nat) (amount : ℚ) : PersistedTransaction
deriving DecidableEq, Repr

/-- Mirror of the Rust `Transaction` enum. -/
inductive Transaction where
  | deposit (client_id : Nat) (tx_id : Nat) (amount : ℚ) : Transaction
  | withdrawal (client_id : Nat) (tx_id : Nat) (amount : ℚ) : Transaction
  | dispute (client_id : Nat) (tx_id : Nat) : Transaction
  | resolve (client_id : Nat) (tx_id : Nat) : Transaction
  | chargeback (client_id : Nat) (tx_id : Nat) : Transaction
deriving DecidableEq, Repr

/-- Association-list model of `HashMap::get`. -/
def mapLookup {β : Type} (k : Nat) : List (Nat × β) → Option β
  | [] => Option.none
  | (k2, v) :: rest => if k2 = k then Option.some v else mapLookup k rest

/-- Association-list model of `HashMap::insert` (insert or overwrite). -/
def mapInsert {β : Type} (k : Nat) (v : β) : List (Nat × β) → List (Nat × β)
  | [] => [(k, v)]
  | (k2, v2) :: rest =>
      if k2 = k then (k2, v) :: rest else (k2, v2) :: mapInsert k v rest

/-- The zero-balance account inserted by `ClientList::get_mut` for an
unknown client id. -/
def freshClient (id : Nat) : Client :=
  { client := id, held := 0, total := 0, available := 0, locked := false }

/-- Model of `ClientList::get_mut`: returns the (possibly extended) map
together with the current account for `id`, creating a zero-balance
account when absent (`entry(id).or_insert_with`). -/
def get_mut (m : List (Nat × Client)) (id : Nat) :
    List (Nat × Client) × Client :=
  match mapLookup id m with
  | Option.some c => (m, c)
  | Option.none => (mapInsert id (freshClient id) m, freshClient id)

/-- Model of `ClientList::get_all`: all tracked accounts. -/
def get_all (m : List (Nat × Client)) : List Client :=
  m.map (fun p => p.2)

/-- Mirror of the Rust `TransactionEngine` struct. -/
structure TransactionEngine where
  client_list : List (Nat × Client)
  transactions : List (Nat × (PersistedTransaction × TransactionState))
deriving DecidableEq, Repr

/-- Model of `TransactionEngine::new`. -/
def TransactionEngine.new : TransactionEngine :=
  { client_list := [], transactions := [] }

/-- Model of `TransactionEngine::handle_deposit`.  Note that `get_mut`
creates the account even on the locked early-return path, and that a
successful deposit overwrites any existing ledger entry for `tx_id`. -/
def handle_deposit (e : TransactionEngine) (client_id tx_id : Nat)
    (amount : ℚ) : TransactionEngine :=
  let p := get_mut e.client_list client_id
  let client := p.2
  if client.locked then { e with client_list := p.1 }
  else
    let client2 := { client with total := client.total + amount,
                                 available := client.available + amount }
    { client_list := mapInsert client_id client2 p.1,
      transactions := mapInsert tx_id
        (PersistedTransaction.deposit client_id tx_id amount,
         TransactionState.none) e.transactions }

/-- Model of `TransactionEngine::handle_withdrawal`.  The Rust guard is
`client.total >= amount || client.available >= amount`; the `tx_id`
argument is ignored by the source (`_ : u32`). -/
def handle_withdrawal (e : TransactionEngine) (client_id _tx_id : Nat)
    (amount : ℚ) : TransactionEngine :=
  let p := get_mut e.client_list client_id
  let client := p.2
  if client.locked then { e with client_list := p.1 }
  else if amount ≤ client.total ∨ amount ≤ client.available then
    let client2 := { client with total := client.total - amount,
                                 available := client.available - amount }
    { e with client_list := mapInsert client_id client2 p.1 }
  else { e with client_list := p.1 }

/-- Model of `TransactionEngine::handle_dispute`.  The `client_id`
argument of the record is ignored by the source (`_ : u16`); the funds
move on the account named inside the ledger entry. -/
def handle_dispute (e : TransactionEngine) (_client_id tx_id : Nat) :
    TransactionEngine :=
  match mapLookup tx_id e.transactions with
  | Option.none => e
  | Option.some (disputed, state) =>
    if state ≠ TransactionState.none then e
    else
      match disputed with
      | PersistedTransaction.deposit cid _ amount =>
        let p := get_mut e.client_list cid
        let client := p.2
        let client2 := { client with available := client.available - amount,
                                     held := client.held + amount }
        { client_list := mapInsert cid client2 p.1,
          transactions := mapInsert tx_id
            (disputed, TransactionState.disputed) e.transactions }

/-- Model of `TransactionEngine::handle_resolve`. -/
def handle_resolve (e : TransactionEngine) (_client_id tx_id : Nat) :
    TransactionEngine :=
  match mapLookup tx_id e.transactions with
  | Option.none => e
  | Option.some (disputed, state) =>
    if state ≠ TransactionState.disputed then e
    else
      match disputed with
      | PersistedTransaction.deposit cid _ amount =>
        let p := get_mut e.client_list cid
        let client := p.2
        let client2 := { client with available := client.available + amount,
                                     held := client.held - amount }
        { client_list := mapInsert cid client2 p.1,
          transactions := mapInsert tx_id
            (disputed, TransactionState.none) e.transactions }

/-- Model of `TransactionEngine::handle_chargeback`.  Note the entry's
state is written back to `TransactionState.none`, not removed. -/
def handle_chargeback (e : TransactionEngine) (_client_id tx_id : Nat) :
    TransactionEngine :=
  match mapLookup tx_id e.transactions with
  | Option.none => e
  | Option.some (disputed, state) =>
    if state ≠ TransactionState.disputed then e
    else
      match disputed with
      | PersistedTransaction.deposit cid _ amount =>
        let p := get_mut e.client_list cid
        let client := p.2
        let client2 := { client with total := client.total - amount,
                                     held := client.held - amount,
                                     locked := true }
        { client_list := mapInsert cid client2 p.1,
          transactions := mapInsert tx_id
            (disputed, TransactionState.none) e.transactions }

/-- Model of `TransactionEngine::compute_transaction`: dispatch on the
transaction kind. -/
def compute_transaction (e : TransactionEngine) (t : Transaction) :
    TransactionEngine :=
  match t with
  | Transaction.deposit c tx a => handle_deposit e c tx a
  | Transaction.withdrawal c tx a => handle_withdrawal e c tx a
  | Transaction.dispute c tx => handle_dispute e c tx
  | Transaction.resolve c tx => handle_resolve e c tx
  | Transaction.chargeback c tx => handle_chargeback e c tx

/-- Model of `TransactionEngine::get_client_list`. -/
def get_client_list (e : TransactionEngine) : List Client :=
  get_all e.client_list

/-- Replay a whole transaction log from a fresh engine. -/
def runTransactions (ts : List Transaction) : TransactionEngine :=
  ts.foldl compute_transaction TransactionEngine.new

/-- Per-account balance invariant: total equals available plus held. -/
def balancedC (c : Client) : Prop := c.total = c.available + c.held

/-- Engine-wide balance invariant over every tracked account. -/
def accountsBalanced (e : TransactionEngine) : Prop :=
  ∀ p ∈ e.client_list, balancedC p.2

/-! ### Association-list lemmas -/

theorem mapLookup_insert_self {β : Type} (k : Nat) (v : β)
    (m : List (Nat × β)) : mapLookup k (mapInsert k v m) = Option.some v := by
  induction m with
  | nil => simp [mapInsert, mapLookup]
  | cons hd tl ih =>
    obtain ⟨k2, v2⟩ := hd
    by_cases h : k2 = k
    · simp [mapInsert, h, mapLookup]
    · simp [mapInsert, h, mapLookup, ih]

theorem mapLookup_insert_ne {β : Type} {k k2 : Nat} (hne : k ≠ k2) (v : β)
    (m : List (Nat × β)) : mapLookup k (mapInsert k2 v m) = mapLookup k m := by
  have hne2 : ¬k2 = k := fun h => hne h.symm
  induction m with
  | nil => simp [mapInsert, mapLookup, hne2]
  | cons hd tl ih =>
    obtain ⟨k3, v3⟩ := hd
    by_cases h : k3 = k2
    · subst h
      simp [mapInsert, mapLookup, hne2]
    · simp [mapInsert, mapLookup, h, ih]

theorem mem_mapInsert {β : Type} {k : Nat} {v : β} {m : List (Nat × β)}
    {p : Nat × β} (h : p ∈ mapInsert k v m) : p = (k, v) ∨ p ∈ m := by
  induction m with
  | nil => simpa [mapInsert] using h
  | cons hd tl ih =>
    obtain ⟨k2, v2⟩ := hd
    by_cases h2 : k2 = k
    · subst h2
      rcases (by simpa [mapInsert] using h :
          p = (k2, v) ∨ p ∈ tl) with h3 | h3
      · exact Or.inl h3
      · exact Or.inr (List.mem_cons_of_mem _ h3)
    · rcases (by simpa [mapInsert, h2] using h :
          p = (k2, v2) ∨ p ∈ mapInsert k v tl) with h3 | h3
      · exact Or.inr (h3 ▸ List.mem_cons_self _ _)
      · rcases ih h3 with h4 | h4
        · exact Or.inl h4
        · exact Or.inr (List.mem_cons_of_mem _ h4)

theorem mapLookup_mem {β : Type} {k : Nat} {v : β} {m : List (Nat × β)}
    (h : mapLookup k m = Option.some v) : (k, v) ∈ m := by
  induction m with
  | nil => simp [mapLookup] at h
  | cons hd tl ih =>
    obtain ⟨k2, v2⟩ := hd
    by_cases h2 : k2 = k
    · subst h2
      have : v2 = v := by simpa [mapLookup] using h
      subst this
      exact List.mem_cons_self _ _
    · exact List.mem_cons_of_mem _ (ih (by simpa [mapLookup, h2] using h))

/-! ### Lemmas about `get_mut` -/

theorem get_mut_of_lookup {m : List (Nat × Client)} {id : Nat} {c : Client}
    (h : mapLookup id m = Option.some c) : get_mut m id = (m, c) := by
  simp [get_mut, h]

theorem get_mut_of_lookup_none {m : List (Nat × Client)} {id : Nat}
    (h : mapLookup id m = Option.none) :
    get_mut m id = (mapInsert id (freshClient id) m, freshClient id) := by
  simp [get_mut, h]

theorem get_mut_fst_lookup {m : List (Nat × Client)} {id k : Nat}
    {c : Client} (h : mapLookup k m = Option.some c) :
    mapLookup k (get_mut m id).1 = Option.some c := by
  rcases hl : mapLookup id m with _ | c2
  · rw [get_mut_of_lookup_none hl]
    by_cases hk : k = id
    · subst hk; rw [h] at hl; cases hl
    · simpa [mapLookup_insert_ne hk] using h
  · rw [get_mut_of_lookup hl]; exact h

theorem get_mut_fst_lookup_ne {m : List (Nat × Client)} {id k : Nat}
    (hk : k ≠ id) : mapLookup k (get_mut m id).1 = mapLookup k m := by
  rcases hl : mapLookup id m with _ | c2
  · rw [get_mut_of_lookup_none hl, mapLookup_insert_ne hk]
  · rw [get_mut_of_lookup hl]

theorem mem_get_mut_fst {m : List (Nat × Client)} {id : Nat}
    {p : Nat × Client} (h : p ∈ (get_mut m id).1) :
    p ∈ m ∨ p = (id, freshClient id) := by
  rcases hl : mapLookup id m with _ | c2
  · rw [get_mut_of_lookup_none hl] at h
    rcases mem_mapInsert h with h2 | h2
    · exact Or.inr h2
    · exact Or.inl h2
  · rw [get_mut_of_lookup hl] at h
    exact Or.inl h

theorem get_mut_snd_of_lookup {m : List (Nat × Client)} {id : Nat}
    {c : Client} (h : mapLookup id m = Option.some c) :
    (get_mut m id).2 = c := by
  rw [get_mut_of_lookup h]

/-! ### The balance invariant is preserved by every handler -/

theorem balancedC_fresh (id : Nat) : balancedC (freshClient id) := by
  simp [balancedC, freshClient]

theorem get_mut_snd_balanced {m : List (Nat × Client)} {id : Nat}
    (h : ∀ p ∈ m, balancedC p.2) : balancedC (get_mut m id).2 := by
  rcases hl : mapLookup id m with _ | c
  · rw [get_mut_of_lookup_none hl]; exact balancedC_fresh id
  · rw [get_mut_of_lookup hl]; exact h _ (mapLookup_mem hl)

theorem balanced_insert {m : List (Nat × Client)} {id k : Nat} {c2 : Client}
    (hm : ∀ p ∈ m, balancedC p.2) (hc : balancedC c2) :
    ∀ p ∈ mapInsert k c2 (get_mut m id).1, balancedC p.2 := by
  intro p hp
  rcases mem_mapInsert hp with h | h
  · rw [h]; exact hc
  · rcases mem_get_mut_fst h with h2 | h2
    · exact hm p h2
    · rw [h2]; exact balancedC_fresh id

theorem balanced_get_mut_fst {m : List (Nat × Client)} {id : Nat}
    (hm : ∀ p ∈ m, balancedC p.2) : ∀ p ∈ (get_mut m id).1, balancedC p.2 := by
  intro p hp
  rcases mem_get_mut_fst hp with h | h
  · exact hm p h
  · rw [h]; exact balancedC_fresh id

theorem handle_deposit_balanced (e : TransactionEngine) (cid tx : Nat)
    (a : ℚ) (h : accountsBalanced e) :
    accountsBalanced (handle_deposit e cid tx a) := by
  have hb := @get_mut_snd_balanced e.client_list cid h
  unfold handle_deposit
  cases hlk : (get_mut e.client_list cid).2.locked with
  | true =>
    simp only [hlk, if_true]
    exact fun p hp => balanced_get_mut_fst h p hp
  | false =>
    simp only [hlk, Bool.false_eq_true, if_false]
    refine balanced_insert h ?_
    simp only [balancedC] at hb ⊢
    rw [hb]; ring

theorem handle_withdrawal_balanced (e : TransactionEngine) (cid tx : Nat)
    (a : ℚ) (h : accountsBalanced e) :
    accountsBalanced (handle_withdrawal e cid tx a) := by
  have hb := @get_mut_snd_balanced e.client_list cid h
  unfold handle_withdrawal
  cases hlk : (get_mut e.client_list cid).2.locked with
  | true =>
    simp only [hlk, if_true]
    exact fun p hp => balanced_get_mut_fst h p hp
  | false =>
    simp only [hlk, Bool.false_eq_true, if_false]
    by_cases hcond : a ≤ (get_mut e.client_list cid).2.total ∨
        a ≤ (get_mut e.client_list cid).2.available
    · simp only [hcond, if_true]
      refine balanced_insert h ?_
      simp only [balancedC] at hb ⊢
      rw [hb]; ring
    · simp only [hcond, if_false]
      exact fun p hp => balanced_get_mut_fst h p hp

theorem handle_dispute_balanced (e : TransactionEngine) (c tx : Nat)
    (h : accountsBalanced e) : accountsBalanced (handle_dispute e c tx) := by
  unfold handle_dispute
  rcases hl : mapLookup tx e.transactions with _ | ⟨d, st⟩
  · exact h
  · rcases st with _ | _
    · simp only [reduceCtorEq, ne_eq, not_false_iff, if_true]
      exact h
    · simp only [ne_eq, not_true_eq_false, if_false, not_not]
      rcases d with ⟨cid0, txo, a⟩
      have hb := @get_mut_snd_balanced e.client_list cid0 h
      refine balanced_insert h ?_
      simp only [balancedC] at hb ⊢
      rw [hb]; ring

theorem handle_resolve_balanced (e : TransactionEngine) (c tx : Nat)
    (h : accountsBalanced e) : accountsBalanced (handle_resolve e c tx) := by
  unfold handle_resolve
  rcases hl : mapLookup tx e.transactions with _ | ⟨d, st⟩
  · exact h
  · rcases st with _ | _
    · simp only [ne_eq, not_true_eq_false, if_false, not_not]
      rcases d with ⟨cid0, txo, a⟩
      have hb := @get_mut_snd_balanced e.client_list cid0 h
      refine balanced_insert h ?_
      simp only [balancedC] at hb ⊢
      rw [hb]; ring
    · simp only [reduceCtorEq, ne_eq, not_false_iff, if_true]
      exact h

theorem handle_chargeback_balanced (e : TransactionEngine) (c tx : Nat)
    (h : accountsBalanced e) : accountsBalanced (handle_chargeback e c tx) := by
  unfold handle_chargeback
  rcases hl : mapLookup tx e.transactions with _ | ⟨d, st⟩
  · exact h
  · rcases st with _ | _
    · simp only [ne_eq, not_true_eq_false, if_false, not_not]
      rcases d with ⟨cid0, txo, a⟩
      have hb := @get_mut_snd_balanced e.client_list cid0 h
      refine balanced_insert h ?_
      simp only [balancedC] at hb ⊢
      rw [hb]; ring
    · simp only [reduceCtorEq, ne_eq, not_false_iff, if_true]
      exact h

theorem compute_balanced (e : TransactionEngine) (t : Transaction)
    (h : accountsBalanced e) : accountsBalanced (compute_transaction e t) := by
  cases t with
  | deposit c tx a => exact handle_deposit_balanced e c tx a h
  | withdrawal c tx a => exact handle_withdrawal_balanced e c tx a h
  | dispute c tx => exact handle_dispute_balanced e c tx h
  | resolve c tx => exact handle_resolve_balanced e c tx h
  | chargeback c tx => exact handle_chargeback_balanced e c tx h

theorem accountsBalanced_new : accountsBalanced TransactionEngine.new := by
  intro p hp
  simp [TransactionEngine.new] at hp

theorem foldl_balanced (ts : List Transaction) (e : TransactionEngine)
    (h : accountsBalanced e) :
    accountsBalanced (ts.foldl compute_transaction e) := by
  induction ts generalizing e with
  | nil => exact h
  | cons t ts ih => exact ih _ (compute_balanced e t h)

/-- C1: for every sequence of transactions applied via
`compute_transaction` starting from the fresh engine, every account in
the snapshot (`get_client_list`) satisfies `total = available + held`,
and each of the five handlers (dispatched through `compute_transaction`)
preserves this equality. -/
theorem c1_balance_invariant :
    (∀ (e : TransactionEngine) (t : Transaction),
        accountsBalanced e → accountsBalanced (compute_transaction e t)) ∧
    (∀ (ts : List Transaction) (c : Client),
        c ∈ get_client_list (runTransactions ts) →
        c.total = c.available + c.held) := by
  refine ⟨compute_balanced, ?_⟩
  intro ts c hc
  have hb := foldl_balanced ts TransactionEngine.new accountsBalanced_new
  simp only [get_client_list, get_all, List.mem_map] at hc
  obtain ⟨p, hp, hpc⟩ := hc
  have := hb p hp
  rw [hpc] at this
  exact this

/-- Witness for C1: the invariant propagation applied to a concrete
deposit from the fresh engine, and the snapshot equality at the
resulting concrete account. -/
theorem c1_balance_invariant_witness :
    accountsBalanced
      (compute_transaction TransactionEngine.new (Transaction.deposit 1 1 10)) ∧
    (Client.mk 1 10 0 10 false).total =
      (Client.mk 1 10 0 10 false).available +
        (Client.mk 1 10 0 10 false).held := by
  constructor
  · exact c1_balance_invariant.1 TransactionEngine.new
      (Transaction.deposit 1 1 10) accountsBalanced_new
  · refine c1_balance_invariant.2 [Transaction.deposit 1 1 10] _ ?_
    norm_num [runTransactions, compute_transaction, handle_deposit, get_mut,
      mapLookup, mapInsert, freshClient, TransactionEngine.new,
      get_client_list, get_all]

/-! ### Locked accounts and the deposit/withdrawal handlers -/

theorem handle_deposit_locked {e : TransactionEngine} {cid : Nat}
    {c : Client} (hc : mapLookup cid e.client_list = Option.some c)
    (hl : c.locked = true) (tx : Nat) (a : ℚ) :
    handle_deposit e cid tx a = e := by
  unfold handle_deposit
  rw [get_mut_of_lookup hc]
  simp [hl]

theorem handle_withdrawal_locked {e : TransactionEngine} {cid : Nat}
    {c : Client} (hc : mapLookup cid e.client_list = Option.some c)
    (hl : c.locked = true) (tx : Nat) (a : ℚ) :
    handle_withdrawal e cid tx a = e := by
  unfold handle_withdrawal
  rw [get_mut_of_lookup hc]
  simp [hl]

/-! ### Handlers only touch the account named in the ledger entry -/

theorem handle_dispute_lookup_other {e : TransactionEngine} {c tx : Nat}
    {k owner txo : Nat} {a : ℚ} {st : TransactionState}
    (hlt : mapLookup tx e.transactions =
      Option.some (PersistedTransaction.deposit owner txo a, st))
    (hk : k ≠ owner) :
    mapLookup k (handle_dispute e c tx).client_list =
      mapLookup k e.client_list := by
  unfold handle_dispute
  rw [hlt]
  cases st with
  | disputed => simp
  | none => simp [mapLookup_insert_ne hk, get_mut_fst_lookup_ne hk]

theorem handle_resolve_lookup_other {e : TransactionEngine} {c tx : Nat}
    {k owner txo : Nat} {a : ℚ} {st : TransactionState}
    (hlt : mapLookup tx e.transactions =
      Option.some (PersistedTransaction.deposit owner txo a, st))
    (hk : k ≠ owner) :
    mapLookup k (handle_resolve e c tx).client_list =
      mapLookup k e.client_list := by
  unfold handle_resolve
  rw [hlt]
  cases st with
  | disputed => simp [mapLookup_insert_ne hk, get_mut_fst_lookup_ne hk]
  | none => simp

theorem handle_chargeback_lookup_other {e : TransactionEngine} {c tx : Nat}
    {k owner txo : Nat} {a : ℚ} {st : TransactionState}
    (hlt : mapLookup tx e.transactions =
      Option.some (PersistedTransaction.deposit owner txo a, st))
    (hk : k ≠ owner) :
    mapLookup k (handle_chargeback e c tx).client_list =
      mapLookup k e.client_list := by
  unfold handle_chargeback
  rw [hlt]
  cases st with
  | disputed => simp [mapLookup_insert_ne hk, get_mut_fst_lookup_ne hk]
  | none => simp

/-! ### Persistence of the locked flag -/

theorem lookup_insert_get_mut_locked {m : List (Nat × Client)} {k cid : Nat}
    {c c2 : Client} (hc : mapLookup cid m = Option.some c)
    (hl : c.locked = true) (hk : cid = k → c2.locked = true) :
    ∃ c', mapLookup cid (mapInsert k c2 (get_mut m k).1) = Option.some c' ∧
      c'.locked = true := by
  by_cases h : cid = k
  · subst h
    exact ⟨c2, mapLookup_insert_self _ _ _, hk rfl⟩
  · refine ⟨c, ?_, hl⟩
    rw [mapLookup_insert_ne h, get_mut_fst_lookup hc]

theorem locked_persists (e : TransactionEngine) (t : Transaction)
    (cid : Nat) (c : Client)
    (hc : mapLookup cid e.client_list = Option.some c)
    (hl : c.locked = true) :
    ∃ c', mapLookup cid (compute_transaction e t).client_list =
      Option.some c' ∧ c'.locked = true := by
  cases t with
  | deposit k tx a =>
    show ∃ c', mapLookup cid (handle_deposit e k tx a).client_list =
      Option.some c' ∧ c'.locked = true
    unfold handle_deposit
    cases hlk : (get_mut e.client_list k).2.locked with
    | true =>
      simp only [hlk, if_true]
      exact ⟨c, get_mut_fst_lookup hc, hl⟩
    | false =>
      simp only [hlk, Bool.false_eq_true, if_false]
      refine lookup_insert_get_mut_locked hc hl ?_
      intro hck
      subst hck
      rw [get_mut_snd_of_lookup hc, hl] at hlk
      cases hlk
  | withdrawal k tx a =>
    show ∃ c', mapLookup cid (handle_withdrawal e k tx a).client_list =
      Option.some c' ∧ c'.locked = true
    unfold handle_withdrawal
    cases hlk : (get_mut e.client_list k).2.locked with
    | true =>
      simp only [hlk, if_true]
      exact ⟨c, get_mut_fst_lookup hc, hl⟩
    | false =>
      simp only [hlk, Bool.false_eq_true, if_false]
      by_cases hcond : a ≤ (get_mut e.client_list k).2.total ∨
          a ≤ (get_mut e.client_list k).2.available
      · simp only [hcond, if_true]
        refine lookup_insert_get_mut_locked hc hl ?_
        intro hck
        subst hck
        rw [get_mut_snd_of_lookup hc, hl] at hlk
        cases hlk
      · simp only [hcond, if_false]
        exact ⟨c, get_mut_fst_lookup hc, hl⟩
  | dispute k tx =>
    show ∃ c', mapLookup cid (handle_dispute e k tx).client_list =
      Option.some c' ∧ c'.locked = true
    unfold handle_dispute
    rcases hlt : mapLookup tx e.transactions with _ | ⟨d, st⟩
    · exact ⟨c, hc, hl⟩
    · rcases d with ⟨cid0, txo, a⟩
      cases st with
      | disputed => simp only [reduceCtorEq, ne_eq, not_false_iff, if_true]
                    exact ⟨c, hc, hl⟩
      | none =>
        simp only [ne_eq, not_true_eq_false, if_false]
        refine lookup_insert_get_mut_locked hc hl ?_
        intro hck
        subst hck
        rw [get_mut_snd_of_lookup hc]
        exact hl
  | resolve k tx =>
    show ∃ c', mapLookup cid (handle_resolve e k tx).client_list =
      Option.some c' ∧ c'.locked = true
    unfold handle_resolve
    rcases hlt : mapLookup tx e.transactions with _ | ⟨d, st⟩
    · exact ⟨c, hc, hl⟩
    · rcases d with ⟨cid0, txo, a⟩
      cases st with
      | disputed =>
        simp only [ne_eq, not_true_eq_false, if_false]
        refine lookup_insert_get_mut_locked hc hl ?_
        intro hck
        subst hck
        rw [get_mut_snd_of_lookup hc]
        exact hl
      | none => simp only [reduceCtorEq, ne_eq, not_false_iff, if_true]
                exact ⟨c, hc, hl⟩
  | chargeback k tx =>
    show ∃ c', mapLookup cid (handle_chargeback e k tx).client_list =
      Option.some c' ∧ c'.locked = true
    unfold handle_chargeback
    rcases hlt : mapLookup tx e.transactions with _ | ⟨d, st⟩
    · exact ⟨c, hc, hl⟩
    · rcases d with ⟨cid0, txo, a⟩
      cases st with
      | disputed =>
        simp only [ne_eq, not_true_eq_false, if_false]
        exact lookup_insert_get_mut_locked hc hl (fun _ => rfl)
      | none => simp only [reduceCtorEq, ne_eq, not_false_iff, if_true]
                exact ⟨c, hc, hl⟩

/-- C5: once an account is locked, a later Deposit or Withdrawal naming
that client leaves the whole engine state unchanged (both handlers
return early on the locked flag). -/
theorem c5_locked_blocks_deposit_withdrawal (e : TransactionEngine)
    (cid tx : Nat) (a : ℚ) (c : Client)
    (hc : mapLookup cid e.client_list = Option.some c)
    (hl : c.locked = true) :
    compute_transaction e (Transaction.deposit cid tx a) = e ∧
    compute_transaction e (Transaction.withdrawal cid tx a) = e :=
  ⟨handle_deposit_locked hc hl tx a, handle_withdrawal_locked hc hl tx a⟩

/-- Witness for C5: on the locked account produced by a
deposit-dispute-chargeback run, a further deposit and withdrawal are
exact no-ops. -/
theorem c5_locked_blocks_deposit_withdrawal_witness :
    compute_transaction (runTransactions [Transaction.deposit 1 1 10,
        Transaction.dispute 1 1, Transaction.chargeback 1 1])
      (Transaction.deposit 1 2 7) =
      runTransactions [Transaction.deposit 1 1 10, Transaction.dispute 1 1,
        Transaction.chargeback 1 1] ∧
    compute_transaction (runTransactions [Transaction.deposit 1 1 10,
        Transaction.dispute 1 1, Transaction.chargeback 1 1])
      (Transaction.withdrawal 1 2 7) =
      runTransactions [Transaction.deposit 1 1 10, Transaction.dispute 1 1,
        Transaction.chargeback 1 1] :=
  c5_locked_blocks_deposit_withdrawal _ 1 2 7
    (Client.mk 1 0 0 0 true)
    (by norm_num [runTransactions, compute_transaction, handle_deposit,
      handle_dispute, handle_chargeback, get_mut, mapLookup, mapInsert,
      freshClient, TransactionEngine.new])
    rfl

/-- C6: Dispute, Resolve and Chargeback ignore the client id carried on
the record itself (the handlers' result does not depend on it), and only
the account named inside the original ledger entry can be affected. -/
theorem c6_entry_owner_authoritative (e : TransactionEngine)
    (ca cb tx k : Nat) :
    (compute_transaction e (Transaction.dispute ca tx) =
       compute_transaction e (Transaction.dispute cb tx)) ∧
    (compute_transaction e (Transaction.resolve ca tx) =
       compute_transaction e (Transaction.resolve cb tx)) ∧
    (compute_transaction e (Transaction.chargeback ca tx) =
       compute_transaction e (Transaction.chargeback cb tx)) ∧
    (∀ (owner txo : Nat) (a : ℚ) (st : TransactionState),
       mapLookup tx e.transactions =
         Option.some (PersistedTransaction.deposit owner txo a, st) →
       k ≠ owner →
       mapLookup k (compute_transaction e
           (Transaction.dispute ca tx)).client_list =
         mapLookup k e.client_list ∧
       mapLookup k (compute_transaction e
           (Transaction.resolve ca tx)).client_list =
         mapLookup k e.client_list ∧
       mapLookup k (compute_transaction e
           (Transaction.chargeback ca tx)).client_list =
         mapLookup k e.client_list) := by
  refine ⟨rfl, rfl, rfl, ?_⟩
  intro owner txo a st hlt hk
  refine ⟨?_, ?_, ?_⟩
  · show mapLookup k (handle_dispute e ca tx).client_list =
      mapLookup k e.client_list
    exact handle_dispute_lookup_other hlt hk
  · show mapLookup k (handle_resolve e ca tx).client_list =
      mapLookup k e.client_list
    exact handle_resolve_lookup_other hlt hk
  · show mapLookup k (handle_chargeback e ca tx).client_list =
      mapLookup k e.client_list
    exact handle_chargeback_lookup_other hlt hk

/-- Witness for C6: with a ledger entry owned by client 2, dispute,
resolve and chargeback records carrying client id 5 leave client 1's
account untouched. -/
theorem c6_entry_owner_authoritative_witness :
    mapLookup 1 (compute_transaction (runTransactions
        [Transaction.deposit 2 7 3]) (Transaction.dispute 5 7)).client_list =
      mapLookup 1 (runTransactions [Transaction.deposit 2 7 3]).client_list ∧
    mapLookup 1 (compute_transaction (runTransactions
        [Transaction.deposit 2 7 3]) (Transaction.resolve 5 7)).client_list =
      mapLookup 1 (runTransactions [Transaction.deposit 2 7 3]).client_list ∧
    mapLookup 1 (compute_transaction (runTransactions
        [Transaction.deposit 2 7 3]) (Transaction.chargeback 5 7)).client_list =
      mapLookup 1 (runTransactions [Transaction.deposit 2 7 3]).client_list :=
  (c6_entry_owner_authoritative (runTransactions [Transaction.deposit 2 7 3])
      5 9 7 1).2.2.2 2 7 3 TransactionState.none
    (by norm_num [runTransactions, compute_transaction, handle_deposit,
      get_mut, mapLookup, mapInsert, freshClient, TransactionEngine.new])
    (by norm_num)

/-- C8: a Dispute, Resolve or Chargeback whose transaction id has no
ledger entry leaves the engine state fully unchanged (the handlers
return before touching the account store). -/
theorem c8_unknown_tx_noop (e : TransactionEngine) (c tx : Nat)
    (h : mapLookup tx e.transactions = Option.none) :
    compute_transaction e (Transaction.dispute c tx) = e ∧
    compute_transaction e (Transaction.resolve c tx) = e ∧
    compute_transaction e (Transaction.chargeback c tx) = e := by
  refine ⟨?_, ?_, ?_⟩ <;>
    simp [compute_transaction, handle_dispute, handle_resolve,
      handle_chargeback, h]

/-- Witness for C8: on the fresh engine, dispute, resolve and chargeback
of an unknown transaction id are exact no-ops. -/
theorem c8_unknown_tx_noop_witness :
    compute_transaction TransactionEngine.new (Transaction.dispute 1 1) =
      TransactionEngine.new ∧
    compute_transaction TransactionEngine.new (Transaction.resolve 1 1) =
      TransactionEngine.new ∧
    compute_transaction TransactionEngine.new (Transaction.chargeback 1 1) =
      TransactionEngine.new :=
  c8_unknown_tx_noop TransactionEngine.new 1 1 rfl

/-- C2 counterexample: after a deposit of 10 and a dispute, client 1 is
unlocked with available 0, held 10, total 10.  A withdrawal of 10 has
available < 10, so per the claim it must leave the state unchanged; the
code's guard `total >= amount || available >= amount` passes and the
funds move (available drops to -10). -/
theorem c2_counterexample :
    mapLookup 1 (runTransactions [Transaction.deposit 1 1 10,
        Transaction.dispute 1 1]).client_list =
      Option.some (Client.mk 1 0 10 10 false) ∧
    ¬((10 : ℚ) ≤ 0) ∧
    mapLookup 1 (compute_transaction (runTransactions
        [Transaction.deposit 1 1 10, Transaction.dispute 1 1])
        (Transaction.withdrawal 1 2 10)).client_list =
      Option.some (Client.mk 1 (-10) 10 0 false) := by
  refine ⟨?_, by norm_num, ?_⟩ <;>
    norm_num [runTransactions, compute_transaction, handle_deposit,
      handle_dispute, handle_withdrawal, get_mut, mapLookup, mapInsert,
      freshClient, TransactionEngine.new]

/-- C2 (amended): on an unlocked existing account, a withdrawal
decreases available and total by the amount iff
`total ≥ amount ∨ available ≥ amount` (the source's guard); when the
guard fails the engine state is left completely unchanged. -/
theorem c2_withdrawal_guard (e : TransactionEngine) (cid tx : Nat)
    (a : ℚ) (c : Client)
    (hc : mapLookup cid e.client_list = Option.some c)
    (hl : c.locked = false) :
    (a ≤ c.total ∨ a ≤ c.available →
      compute_transaction e (Transaction.withdrawal cid tx a) =
        { e with
          client_list := mapInsert cid
              ({ c with total := c.total - a, available := c.available - a })
              e.client_list }) ∧
    (¬(a ≤ c.total ∨ a ≤ c.available) →
      compute_transaction e (Transaction.withdrawal cid tx a) = e) := by
  constructor <;> intro hcond <;>
  · show handle_withdrawal e cid tx a = _
    unfold handle_withdrawal
    rw [get_mut_of_lookup hc]
    simp [hl, hcond]

/-- Witness for C2 (amended): a withdrawal of 99 against a balance of 10
is an exact no-op. -/
theorem c2_withdrawal_guard_witness :
    compute_transaction (runTransactions [Transaction.deposit 1 1 10])
      (Transaction.withdrawal 1 2 99) =
      runTransactions [Transaction.deposit 1 1 10] :=
  (c2_withdrawal_guard _ 1 2 99 (Client.mk 1 10 0 10 false)
      (by norm_num [runTransactions, compute_transaction, handle_deposit,
        get_mut, mapLookup, mapInsert, freshClient, TransactionEngine.new])
      rfl).2 (by norm_num)

/-- C3 counterexample: after deposit, dispute and chargeback of tx 1 the
account is emptied and locked, and the ledger entry is back in state
None; a later Dispute of the same tx 1 moves 10 from available to held
again (available becomes -10), so the entry is not terminal. -/
theorem c3_counterexample :
    mapLookup 1 (runTransactions [Transaction.deposit 1 1 10,
        Transaction.dispute 1 1, Transaction.chargeback 1 1]).client_list =
      Option.some (Client.mk 1 0 0 0 true) ∧
    mapLookup 1 (runTransactions [Transaction.deposit 1 1 10,
        Transaction.dispute 1 1, Transaction.chargeback 1 1,
        Transaction.dispute 1 1]).client_list =
      Option.some (Client.mk 1 (-10) 10 0 true) := by
  constructor <;>
    norm_num [runTransactions, compute_transaction, handle_deposit,
      handle_dispute, handle_chargeback, get_mut, mapLookup, mapInsert,
      freshClient, TransactionEngine.new]

/-- C3 (amended): a Chargeback leaves the ledger entry for its tx id
(when present) in state None, and an entry in state None makes any
Resolve or Chargeback referencing it a no-op; a later Dispute, however,
moves funds again, so the entry is terminal only until re-disputed. -/
theorem c3_chargeback_resets_state :
    (∀ (e : TransactionEngine) (c tx : Nat) (d : PersistedTransaction)
        (st : TransactionState),
       mapLookup tx (compute_transaction e
           (Transaction.chargeback c tx)).transactions =
         Option.some (d, st) →
       st = TransactionState.none) ∧
    (∀ (e : TransactionEngine) (c tx : Nat) (d : PersistedTransaction),
       mapLookup tx e.transactions =
         Option.some (d, TransactionState.none) →
       compute_transaction e (Transaction.resolve c tx) = e ∧
       compute_transaction e (Transaction.chargeback c tx) = e) := by
  constructor
  · intro e c tx d st h
    have hcb : compute_transaction e (Transaction.chargeback c tx) =
        handle_chargeback e c tx := rfl
    rw [hcb] at h
    unfold handle_chargeback at h
    rcases hlt : mapLookup tx e.transactions with _ | ⟨d0, st0⟩
    · simp [hlt] at h
    · rcases d0 with ⟨cid0, txo, a0⟩
      cases st0 with
      | disputed =>
        simp only [hlt, ne_eq, not_true_eq_false, if_false,
          mapLookup_insert_self] at h
        injection h with h2
        exact (congrArg Prod.snd h2).symm
      | none =>
        simp only [hlt, reduceCtorEq, ne_eq, not_false_iff, if_true] at h
        injection h with h2
        exact (congrArg Prod.snd h2).symm
  · intro e c tx d h
    constructor
    · show handle_resolve e c tx = e
      unfold handle_resolve
      rw [h]
      simp
    · show handle_chargeback e c tx = e
      unfold handle_chargeback
      rw [h]
      simp

/-- Witness for C3 (amended): with tx 1 recorded in state None after a
plain deposit, resolve and chargeback of tx 1 are exact no-ops. -/
theorem c3_chargeback_resets_state_witness :
    compute_transaction (runTransactions [Transaction.deposit 1 1 10])
      (Transaction.resolve 1 1) =
      runTransactions [Transaction.deposit 1 1 10] ∧
    compute_transaction (runTransactions [Transaction.deposit 1 1 10])
      (Transaction.chargeback 1 1) =
      runTransactions [Transaction.deposit 1 1 10] :=
  c3_chargeback_resets_state.2 _ 1 1 (PersistedTransaction.deposit 1 1 10)
    (by norm_num [runTransactions, compute_transaction, handle_deposit,
      get_mut, mapLookup, mapInsert, freshClient, TransactionEngine.new])

/-- C4 counterexample: after deposit(tx 1), deposit(tx 2), dispute(tx 1)
and chargeback(tx 1), client 1 is locked with available 5; a later
Dispute of tx 2 still moves 5 from available to held on the locked
account, so a locked account's balances are not frozen against
dispute-side operations. -/
theorem c4_counterexample :
    mapLookup 1 (runTransactions [Transaction.deposit 1 1 10,
        Transaction.deposit 1 2 5, Transaction.dispute 1 1,
        Transaction.chargeback 1 1]).client_list =
      Option.some (Client.mk 1 5 0 5 true) ∧
    mapLookup 1 (runTransactions [Transaction.deposit 1 1 10,
        Transaction.deposit 1 2 5, Transaction.dispute 1 1,
        Transaction.chargeback 1 1, Transaction.dispute 1 2]).client_list =
      Option.some (Client.mk 1 0 5 5 true) := by
  constructor <;>
    norm_num [runTransactions, compute_transaction, handle_deposit,
      handle_dispute, handle_chargeback, get_mut, mapLookup, mapInsert,
      freshClient, TransactionEngine.new]

/-- C4 (amended): once an account's locked flag is true it is never
cleared by any later transaction, and later Deposits and Withdrawals
naming that client are exact no-ops; Dispute, Resolve and Chargeback,
however, can still change the locked account's balances. -/
theorem c4_locked_terminal :
    (∀ (e : TransactionEngine) (t : Transaction) (cid : Nat) (c : Client),
       mapLookup cid e.client_list = Option.some c → c.locked = true →
       ∃ c', mapLookup cid (compute_transaction e t).client_list =
           Option.some c' ∧ c'.locked = true) ∧
    (∀ (e : TransactionEngine) (cid tx : Nat) (a : ℚ) (c : Client),
       mapLookup cid e.client_list = Option.some c → c.locked = true →
       compute_transaction e (Transaction.deposit cid tx a) = e ∧
       compute_transaction e (Transaction.withdrawal cid tx a) = e) :=
  ⟨locked_persists,
   fun _ _ tx a _ hc hl =>
     ⟨handle_deposit_locked hc hl tx a, handle_withdrawal_locked hc hl tx a⟩⟩

/-- Witness for C4 (amended): on the locked account produced by a
deposit-dispute-chargeback run, a deposit is a no-op and the locked flag
survives a resolve. -/
theorem c4_locked_terminal_witness :
    (compute_transaction (runTransactions [Transaction.deposit 1 1 10,
        Transaction.dispute 1 1, Transaction.chargeback 1 1])
      (Transaction.deposit 1 5 3) =
      runTransactions [Transaction.deposit 1 1 10, Transaction.dispute 1 1,
        Transaction.chargeback 1 1]) ∧
    (∃ c', mapLookup 1 (compute_transaction (runTransactions
          [Transaction.deposit 1 1 10, Transaction.dispute 1 1,
           Transaction.chargeback 1 1])
          (Transaction.resolve 1 1)).client_list = Option.some c' ∧
       c'.locked = true) :=
  ⟨(c4_locked_terminal.2 _ 1 5 3 (Client.mk 1 0 0 0 true)
      (by norm_num [runTransactions, compute_transaction, handle_deposit,
        handle_dispute, handle_chargeback, get_mut, mapLookup, mapInsert,
        freshClient, TransactionEngine.new]) rfl).1,
   c4_locked_terminal.1 _ (Transaction.resolve 1 1) 1 (Client.mk 1 0 0 0 true)
      (by norm_num [runTransactions, compute_transaction, handle_deposit,
        handle_dispute, handle_chargeback, get_mut, mapLookup, mapInsert,
        freshClient, TransactionEngine.new]) rfl⟩

/-- C7 counterexample: take the reachable state after deposit, dispute,
chargeback, dispute of tx 1 (client 1 locked, available -10, held 10,
total 0, entry Disputed).  Applying Deposit(1,1,5) (a no-op: locked),
then Dispute(1), then Resolve(1) ends with (0,0,0), not the
post-deposit values (-10,10,0): the round-trip fails on locked
accounts. -/
theorem c7_counterexample :
    mapLookup 1 (runTransactions [Transaction.deposit 1 1 10,
        Transaction.dispute 1 1, Transaction.chargeback 1 1,
        Transaction.dispute 1 1, Transaction.deposit 1 1 5]).client_list =
      Option.some (Client.mk 1 (-10) 10 0 true) ∧
    mapLookup 1 (runTransactions [Transaction.deposit 1 1 10,
        Transaction.dispute 1 1, Transaction.chargeback 1 1,
        Transaction.dispute 1 1, Transaction.deposit 1 1 5,
        Transaction.dispute 1 1, Transaction.resolve 1 1]).client_list =
      Option.some (Client.mk 1 0 0 0 true) ∧
    Client.mk 1 (-10) 10 0 true ≠ Client.mk 1 0 0 0 true := by
  refine ⟨?_, ?_, by simp [Client.mk.injEq]⟩ <;>
    norm_num [runTransactions, compute_transaction, handle_deposit,
      handle_dispute, handle_resolve, handle_chargeback, get_mut,
      mapLookup, mapInsert, freshClient, TransactionEngine.new]

/-- Lookup-level description of a deposit that fires (account absent or
unlocked): the account is credited on available and total and the ledger
entry for the tx id is (re)written with state None. -/
theorem handle_deposit_unlocked_lookup (e : TransactionEngine)
    (cid tx : Nat) (a : ℚ)
    (hlock : (get_mut e.client_list cid).2.locked = false) :
    mapLookup cid (handle_deposit e cid tx a).client_list =
      Option.some (Client.mk (get_mut e.client_list cid).2.client
        ((get_mut e.client_list cid).2.available + a)
        (get_mut e.client_list cid).2.held
        ((get_mut e.client_list cid).2.total + a)
        (get_mut e.client_list cid).2.locked) ∧
    mapLookup tx (handle_deposit e cid tx a).transactions =
      Option.some (PersistedTransaction.deposit cid tx a,
        TransactionState.none) := by
  unfold handle_deposit
  simp only [hlock, Bool.false_eq_true, if_false]
  exact ⟨mapLookup_insert_self _ _ _, mapLookup_insert_self _ _ _⟩

/-- Lookup-level description of a dispute that fires (entry present in
state None): the entry amount moves from available to held on the
owner's account and the entry becomes Disputed. -/
theorem handle_dispute_fires_lookup (e : TransactionEngine)
    (c2 cid tx txo : Nat) (a : ℚ) (c : Client)
    (hlt : mapLookup tx e.transactions =
      Option.some (PersistedTransaction.deposit cid txo a,
        TransactionState.none))
    (hc : mapLookup cid e.client_list = Option.some c) :
    mapLookup cid (handle_dispute e c2 tx).client_list =
      Option.some (Client.mk c.client (c.available - a) (c.held + a)
        c.total c.locked) ∧
    mapLookup tx (handle_dispute e c2 tx).transactions =
      Option.some (PersistedTransaction.deposit cid txo a,
        TransactionState.disputed) := by
  unfold handle_dispute
  simp only [hlt, ne_eq, not_true_eq_false, if_false, reduceCtorEq,
    not_false_iff, if_true, get_mut_of_lookup hc]
  exact ⟨mapLookup_insert_self _ _ _, mapLookup_insert_self _ _ _⟩

/-- Lookup-level description of a resolve that fires (entry present in
state Disputed): the entry amount moves back from held to available and
the entry returns to state None. -/
theorem handle_resolve_fires_lookup (e : TransactionEngine)
    (c2 cid tx txo : Nat) (a : ℚ) (c : Client)
    (hlt : mapLookup tx e.transactions =
      Option.some (PersistedTransaction.deposit cid txo a,
        TransactionState.disputed))
    (hc : mapLookup cid e.client_list = Option.some c) :
    mapLookup cid (handle_resolve e c2 tx).client_list =
      Option.some (Client.mk c.client (c.available + a) (c.held - a)
        c.total c.locked) ∧
    mapLookup tx (handle_resolve e c2 tx).transactions =
      Option.some (PersistedTransaction.deposit cid txo a,
        TransactionState.none) := by
  unfold handle_resolve
  simp only [hlt, ne_eq, not_true_eq_false, if_false, reduceCtorEq,
    not_false_iff, if_true, get_mut_of_lookup hc]
  exact ⟨mapLookup_insert_self _ _ _, mapLookup_insert_self _ _ _⟩

/-- C7 (amended): from any engine state in which the depositing client's
account is absent or unlocked, Deposit(cid,tx,a) then Dispute(tx) then
Resolve(tx) restores that client's account to exactly its post-deposit
value (the dispute/resolve pair is an exact round-trip). -/
theorem c7_dispute_resolve_roundtrip (e : TransactionEngine)
    (cid tx : Nat) (a : ℚ)
    (h : ∀ c, mapLookup cid e.client_list = Option.some c →
      c.locked = false) :
    mapLookup cid (compute_transaction (compute_transaction
        (compute_transaction e (Transaction.deposit cid tx a))
        (Transaction.dispute cid tx))
        (Transaction.resolve cid tx)).client_list =
      mapLookup cid (compute_transaction e
        (Transaction.deposit cid tx a)).client_list := by
  have hlock : (get_mut e.client_list cid).2.locked = false := by
    rcases hl : mapLookup cid e.client_list with _ | c
    · rw [get_mut_of_lookup_none hl]; rfl
    · rw [get_mut_of_lookup hl]; exact h c hl
  obtain ⟨d1, d2⟩ := handle_deposit_unlocked_lookup e cid tx a hlock
  obtain ⟨l1, l2⟩ := handle_dispute_fires_lookup
    (handle_deposit e cid tx a) cid cid tx tx a _ d2 d1
  obtain ⟨r1, r2⟩ := handle_resolve_fires_lookup
    (handle_dispute (handle_deposit e cid tx a) cid tx) cid cid tx tx a _
    l2 l1
  show mapLookup cid (handle_resolve
      (handle_dispute (handle_deposit e cid tx a) cid tx) cid
      tx).client_list =
    mapLookup cid (handle_deposit e cid tx a).client_list
  rw [r1, d1]
  simp only [Option.some.injEq, Client.mk.injEq, true_and, and_true]
  exact ⟨by ring, by ring⟩


/-- Witness for C7 (amended): from the fresh engine (no account for
client 1 yet), deposit-dispute-resolve leaves client 1 exactly at the
post-deposit snapshot. -/
theorem c7_dispute_resolve_roundtrip_witness :
    mapLookup 1 (compute_transaction (compute_transaction
        (compute_transaction TransactionEngine.new
          (Transaction.deposit 1 1 10)) (Transaction.dispute 1 1))
        (Transaction.resolve 1 1)).client_list =
      mapLookup 1 (compute_transaction TransactionEngine.new
        (Transaction.deposit 1 1 10)).client_list :=
  c7_dispute_resolve_roundtrip TransactionEngine.new 1 1 10
    (by intro c hc; simp [TransactionEngine.new, mapLookup] at hc)

/-- C9: a Deposit on an unlocked existing account whose tx id already
has a ledger entry overwrites the entry with the new client, amount and
dispute state None, credits available and total, leaves held untouched
and does not modify any other account. -/
theorem c9_deposit_overwrites_entry (e : TransactionEngine)
    (cid tx : Nat) (a : ℚ) (d : PersistedTransaction)
    (st : TransactionState) (c : Client)
    (hd : mapLookup tx e.transactions = Option.some (d, st))
    (hc : mapLookup cid e.client_list = Option.some c)
    (hl : c.locked = false) :
    mapLookup tx (compute_transaction e
        (Transaction.deposit cid tx a)).transactions =
      Option.some (PersistedTransaction.deposit cid tx a,
        TransactionState.none) ∧
    mapLookup cid (compute_transaction e
        (Transaction.deposit cid tx a)).client_list =
      Option.some
        ({ c with total := c.total + a, available := c.available + a }) ∧
    ∀ k, k ≠ cid →
      mapLookup k (compute_transaction e
          (Transaction.deposit cid tx a)).client_list =
        mapLookup k e.client_list := by
  have hdep : compute_transaction e (Transaction.deposit cid tx a) =
      { client_list := mapInsert cid
          ({ c with total := c.total + a, available := c.available + a })
          e.client_list,
        transactions := mapInsert tx
          (PersistedTransaction.deposit cid tx a, TransactionState.none)
          e.transactions } := by
    show handle_deposit e cid tx a = _
    unfold handle_deposit
    rw [get_mut_of_lookup hc]
    simp [hl]
  rw [hdep]
  refine ⟨mapLookup_insert_self _ _ _, mapLookup_insert_self _ _ _, ?_⟩
  intro k hk
  exact mapLookup_insert_ne hk _ _

/-- Witness for C9: reusing tx 7 (currently Disputed, owned by client 2)
for a new deposit of 5 resets the entry to state None with the new
amount and credits the account while held stays at 3. -/
theorem c9_deposit_overwrites_entry_witness :
    mapLookup 7 (compute_transaction (runTransactions
        [Transaction.deposit 2 7 3, Transaction.dispute 2 7])
        (Transaction.deposit 2 7 5)).transactions =
      Option.some (PersistedTransaction.deposit 2 7 5,
        TransactionState.none) ∧
    mapLookup 2 (compute_transaction (runTransactions
        [Transaction.deposit 2 7 3, Transaction.dispute 2 7])
        (Transaction.deposit 2 7 5)).client_list =
      Option.some (Client.mk 2 ((0 : ℚ) + 5) 3 ((3 : ℚ) + 5) false) :=
  ⟨(c9_deposit_overwrites_entry _ 2 7 5
      (PersistedTransaction.deposit 2 7 3) TransactionState.disputed
      (Client.mk 2 0 3 3 false)
      (by norm_num [runTransactions, compute_transaction, handle_deposit,
        handle_dispute, get_mut, mapLookup, mapInsert, freshClient,
        TransactionEngine.new])
      (by norm_num [runTransactions, compute_transaction, handle_deposit,
        handle_dispute, get_mut, mapLookup, mapInsert, freshClient,
        TransactionEngine.new])
      rfl).1,
   (c9_deposit_overwrites_entry _ 2 7 5
      (PersistedTransaction.deposit 2 7 3) TransactionState.disputed
      (Client.mk 2 0 3 3 false)
      (by norm_num [runTransactions, compute_transaction, handle_deposit,
        handle_dispute, get_mut, mapLookup, mapInsert, freshClient,
        TransactionEngine.new])
      (by norm_num [runTransactions, compute_transaction, handle_deposit,
        handle_dispute, get_mut, mapLookup, mapInsert, freshClient,
        TransactionEngine.new])
      rfl).2.1⟩

/-- C10: a Dispute on an existing undisputed ledger entry moves the
entry's amount from available to held unconditionally, with no check
that available covers the amount; concretely, after Deposit(10),
Withdrawal(10), Dispute of the deposit, available is -10. -/
theorem c10_dispute_unconditional :
    (∀ (e : TransactionEngine) (c tx owner txo : Nat) (a : ℚ),
       mapLookup tx e.transactions =
         Option.some (PersistedTransaction.deposit owner txo a,
           TransactionState.none) →
       compute_transaction e (Transaction.dispute c tx) =
         { client_list := mapInsert owner
             ({ (get_mut e.client_list owner).2 with
               available := (get_mut e.client_list owner).2.available - a,
               held := (get_mut e.client_list owner).2.held + a })
             (get_mut e.client_list owner).1,
           transactions := mapInsert tx
             (PersistedTransaction.deposit owner txo a,
              TransactionState.disputed) e.transactions }) ∧
    mapLookup 1 (runTransactions [Transaction.deposit 1 1 10,
        Transaction.withdrawal 1 2 10, Transaction.dispute 1 1]).client_list =
      Option.some (Client.mk 1 (-10) 10 0 false) := by
  constructor
  · intro e c tx owner txo a h
    show handle_dispute e c tx = _
    unfold handle_dispute
    rw [h]
    simp
  · norm_num [runTransactions, compute_transaction, handle_deposit,
      handle_withdrawal, handle_dispute, get_mut, mapLookup, mapInsert,
      freshClient, TransactionEngine.new]

/-- Witness for C10: disputing tx 1 (a deposit of 10 by client 1, with a
dispute record carrying client id 2) moves 10 from available to held on
client 1. -/
theorem c10_dispute_unconditional_witness :
    mapLookup 1 (compute_transaction
        (runTransactions [Transaction.deposit 1 1 10])
        (Transaction.dispute 2 1)).client_list =
      Option.some (Client.mk 1 0 10 10 false) := by
  have h := c10_dispute_unconditional.1
    (runTransactions [Transaction.deposit 1 1 10]) 2 1 1 1 10
    (by norm_num [runTransactions, compute_transaction, handle_deposit,
      get_mut, mapLookup, mapInsert, freshClient, TransactionEngine.new])
  rw [h]
  norm_num [runTransactions, compute_transaction, handle_deposit, get_mut,
    mapLookup, mapInsert, freshClient, TransactionEngine.new]

end TransactionEngineModel
